import Mathlib

/-!
Verification of the goline line-wrapping engine (src/main.go).

The engine is the per-byte loop of `main` (src/main.go:183-308): it reads
the input one byte at a time, tracks a one-byte lookback `lastB`, a lexical
mode (`syntaxMode`: normal / line-comment / block-comment), per-line indent
counters, a token buffer `tok`, a line buffer `line` and an output buffer
`out`.  We embed the loop body as a step function over an explicit state,
the whole run as a left fold, and the post-loop flush (src/main.go:297-308)
as `finish`.  The second engine iteration in the repository
(`maxlenWriter.Write`, src/main.go:624-667) is embedded as `mlwWrite`.
-/

set_option maxRecDepth 8000

namespace Goline

/-- Lexical mode of the byte being processed.  The source stores it as the
string `syntaxMode` with values `""` (normal Go code), `"line-comment"` and
`"block-comment"` (src/main.go:139-154). -/
inductive Mode where
  | normal
  | lineComment
  | blockComment
deriving DecidableEq, Repr

/-- State of the per-byte loop of `main` (src/main.go:132-181):
output buffer `out`, current line buffer `line`, current token buffer
`tok`, the indent counters `lineIndent.before.tabs` / `.spaces`, the
lexical mode, and the one-byte lookback `lastB` (Go zero value 0 before
the first byte). -/
structure EngineState where
  out : List Nat
  line : List Nat
  tok : List Nat
  indentTabs : Nat
  indentSpaces : Nat
  mode : Mode
  lastB : Nat
deriving DecidableEq, Repr

/-- The fixed boundary-byte set `tokEnds` of the engine
(src/main.go:172-174): `~ ! @ # $ % ^ & * ( ) - + = | } ] { [ : ; / ? . > < ,`
as byte values. -/
def tokEnds : List Nat :=
  [126, 33, 64, 35, 36, 37, 94, 38, 42, 40, 41,
   45, 43, 61, 124, 125, 93, 123, 91, 58, 59, 47, 63, 46,
   62, 60, 44]

/-- Initial engine state: all buffers empty, indent counters zero, normal
mode, `lastB = 0` (Go zero value of `byte`). -/
def initState : EngineState :=
  { out := [], line := [], tok := [], indentTabs := 0, indentSpaces := 0,
    mode := Mode.normal, lastB := 0 }

/-- One iteration of the per-byte loop (src/main.go:183-295) on byte `b`:
1. repeated-whitespace consumption into the indent counters
   (src/main.go:191-199; the `continue` skips everything else),
2. comment-mode transitions on two-byte lookback (src/main.go:202-225;
   each appends `b` to `tok`, sets `lastB` and continues),
3. boundary-byte handling (src/main.go:232-269): the finished token is
   written to `out` (both branches call `tok.WriteTo(out)`), `tok`
   restarts with `b`; when `line.Len()+tok.Len() > maxlen` the flag
   `doNewLine` is set,
4. the newline block (src/main.go:272-288) runs when `doNewLine` is set or
   `b` is a newline: `tok` is appended to `line`, a newline byte is
   appended, `line` is written to `out` and reset; the `continue` skips the
   `lastB = b` update (src/main.go:294), so `lastB` keeps its old value,
5. otherwise `b` is appended to `tok` and `lastB` is updated. -/
def step (maxlen : Nat) (s : EngineState) (b : Nat) : EngineState :=
  if s.lastB = 9 ∧ b = 9 then
    { s with indentTabs := s.indentTabs + 1, lastB := b }
  else if s.lastB = 32 ∧ b = 32 then
    { s with indentSpaces := s.indentSpaces + 1, lastB := b }
  else if s.mode = Mode.blockComment ∧ s.lastB = 42 ∧ b = 47 then
    { s with mode := Mode.normal, tok := s.tok ++ [b], lastB := b }
  else if s.mode ≠ Mode.blockComment ∧ s.lastB = 47 ∧ b = 42 then
    { s with mode := Mode.blockComment, tok := s.tok ++ [b], lastB := b }
  else if s.mode ≠ Mode.blockComment ∧ s.lastB = 47 ∧ b = 47 then
    { s with mode := Mode.lineComment, tok := s.tok ++ [b], lastB := b }
  else if b ∈ tokEnds then
    if s.line.length + s.tok.length > maxlen then
      { s with out := s.out ++ s.tok ++ s.line ++ [b, 10],
               tok := [], line := [] }
    else
      { s with out := s.out ++ s.tok, tok := [b], lastB := b }
  else if b = 10 then
    { s with out := s.out ++ s.line ++ s.tok ++ [10], tok := [], line := [] }
  else
    { s with tok := s.tok ++ [b], lastB := b }

/-- Running the loop over a byte list: a single forward fold of `step`. -/
def runFrom (maxlen : Nat) (s : EngineState) (input : List Nat) : EngineState :=
  input.foldl (step maxlen) s

/-- The post-loop flush (src/main.go:297-308): a non-empty `tok` is
appended to `line`, a non-empty `line` is appended to `out`. -/
def finish (s : EngineState) : List Nat :=
  let line := if s.tok.length > 0 then s.line ++ s.tok else s.line
  if line.length > 0 then s.out ++ line else s.out

/-- The whole engine: run the loop from the initial state over the input
bytes and flush. -/
def wrap (input : List Nat) (maxlen : Nat) : List Nat :=
  finish (runFrom maxlen initState input)

/-- Remove all newline bytes (for the losslessness comparison). -/
def removeNewlines (l : List Nat) : List Nat :=
  l.filter (fun b => b ≠ 10)

/-- Split a byte sequence at newline bytes into its lines (the newline
bytes themselves are dropped; a trailing newline yields a final empty
segment). -/
def linesOf : List Nat → List (List Nat)
  | [] => [[]]
  | b :: rest =>
    if b = 10 then [] :: linesOf rest
    else
      match linesOf rest with
      | [] => [[b]]
      | l :: ls => (b :: l) :: ls

/-- `indentParams.bytes` (src/main.go:57-87): the literal indent prefix,
tabs first, then spaces. -/
def indentBytes (tabs spaces : Nat) : List Nat :=
  List.replicate tabs 9 ++ List.replicate spaces 32

/-- `maxlenWriter.Write` of the second engine iteration
(src/main.go:624-667): if `line` plus `tok` would exceed `maxlen`, the
local copy of the indent gains one tab, a newline byte is appended to
`line`, `line` is flushed to `out`, and the new `line` is pre-seeded with
the (incremented) indent bytes; both `switch syntaxMode` statements
contain only a `default` case, so every mode is treated identically.
Finally `tok` is appended to `line`.  Returns the new `(out, line)`. -/
def mlwWrite (maxlen : Nat) (out line tok : List Nat) (mode : Mode)
    (tabs spaces : Nat) : List Nat × List Nat :=
  match mode with
  | _ =>
    if line.length + tok.length > maxlen then
      (out ++ line ++ [10], indentBytes (tabs + 1) spaces ++ tok)
    else
      (out, line ++ tok)

/-- The engine as a function of a would-be `-w` flag.  `main`
(src/main.go:102-112) parses `args[0]` as `maxlen` and treats every
remaining argument as a path: no code in the file ever reads a `-w` flag,
so the produced bytes are computed from the input and `maxlen` alone. -/
def wrapWithWarnFlag (_warn : Bool) (input : List Nat) (maxlen : Nat) : List Nat :=
  wrap input maxlen

/-- The repeated-whitespace consumption condition of the loop
(src/main.go:191-199): the byte equals the lookback byte and both are a
tab or both are a space. -/
def consumesWs (s : EngineState) (b : Nat) : Prop :=
  (s.lastB = 9 ∧ b = 9) ∨ (s.lastB = 32 ∧ b = 32)

instance (s : EngineState) (b : Nat) : Decidable (consumesWs s b) := by
  unfold consumesWs; exact inferInstance

/-- The comment-transition conditions of the loop (src/main.go:202-225). -/
def commentStep (s : EngineState) (b : Nat) : Prop :=
  (s.mode = Mode.blockComment ∧ s.lastB = 42 ∧ b = 47) ∨
  (s.mode ≠ Mode.blockComment ∧ s.lastB = 47 ∧ b = 42) ∨
  (s.mode ≠ Mode.blockComment ∧ s.lastB = 47 ∧ b = 47)

instance (s : EngineState) (b : Nat) : Decidable (commentStep s b) := by
  unfold commentStep; exact inferInstance

/-- The condition under which the loop sets `doNewLine`
(src/main.go:238-251): the byte is a boundary byte reached with neither
the whitespace-consumption branch nor a comment transition firing, and
the pending content exceeds `maxlen`. -/
def overflowStep (maxlen : Nat) (s : EngineState) (b : Nat) : Prop :=
  ¬ consumesWs s b ∧ ¬ commentStep s b ∧ b ∈ tokEnds ∧
    s.line.length + s.tok.length > maxlen

instance (maxlen : Nat) (s : EngineState) (b : Nat) :
    Decidable (overflowStep maxlen s b) := by
  unfold overflowStep; exact inferInstance

/-- A run is clean when no step consumes a whitespace byte and no step
takes the overflow branch: the engine then neither drops a byte nor
inserts a line break. -/
def CleanRun (maxlen : Nat) : EngineState → List Nat → Prop
  | _, [] => True
  | s, b :: rest =>
    ¬ consumesWs s b ∧ ¬ overflowStep maxlen s b ∧
      CleanRun maxlen (step maxlen s b) rest

def cleanRunDec (maxlen : Nat) :
    (s : EngineState) → (l : List Nat) → Decidable (CleanRun maxlen s l)
  | _, [] => isTrue trivial
  | s, b :: rest =>
    haveI : Decidable (CleanRun maxlen (step maxlen s b) rest) :=
      cleanRunDec maxlen (step maxlen s b) rest
    decidable_of_iff
      (¬ consumesWs s b ∧ ¬ overflowStep maxlen s b ∧
        CleanRun maxlen (step maxlen s b) rest)
      (by rw [CleanRun])

instance (maxlen : Nat) (s : EngineState) (l : List Nat) :
    Decidable (CleanRun maxlen s l) :=
  cleanRunDec maxlen s l

/-- A run takes no overflow break step: at no point does a boundary byte
arrive while the pending content exceeds `maxlen` (the condition under
which src/main.go:238-251 sets `doNewLine` and inserts a line break).
This holds in particular whenever `maxlen` is at least every pending token
length, e.g. at least the longest atomic token of the input. -/
def NoOverflowRun (maxlen : Nat) : EngineState → List Nat → Prop
  | _, [] => True
  | s, b :: rest =>
    ¬ overflowStep maxlen s b ∧ NoOverflowRun maxlen (step maxlen s b) rest

def noOverflowRunDec (maxlen : Nat) :
    (s : EngineState) → (l : List Nat) → Decidable (NoOverflowRun maxlen s l)
  | _, [] => isTrue trivial
  | s, b :: rest =>
    haveI : Decidable (NoOverflowRun maxlen (step maxlen s b) rest) :=
      noOverflowRunDec maxlen (step maxlen s b) rest
    decidable_of_iff
      (¬ overflowStep maxlen s b ∧
        NoOverflowRun maxlen (step maxlen s b) rest)
      (by rw [NoOverflowRun])

instance (maxlen : Nat) (s : EngineState) (l : List Nat) :
    Decidable (NoOverflowRun maxlen s l) :=
  noOverflowRunDec maxlen s l

/-- The input bytes that survive the run: each byte on which the
repeated-whitespace consumption branch (src/main.go:191-199) fires is
dropped, every other byte is kept. -/
def dropRun (maxlen : Nat) : EngineState → List Nat → List Nat
  | _, [] => []
  | s, b :: rest =>
    if consumesWs s b then dropRun maxlen (step maxlen s b) rest
    else b :: dropRun maxlen (step maxlen s b) rest

/-- Two states agreeing on every component the engine's output can depend
on (everything except the indent counters, which no branch of the loop
ever reads back). -/
def SameCore (s₁ s₂ : EngineState) : Prop :=
  s₁.out = s₂.out ∧ s₁.line = s₂.line ∧ s₁.tok = s₂.tok ∧
    s₁.mode = s₂.mode ∧ s₁.lastB = s₂.lastB

/-- Total indent bookkeeping recorded so far. -/
def indentSum (s : EngineState) : Nat :=
  s.indentTabs + s.indentSpaces

theorem sameCore_refl (s : EngineState) : SameCore s s :=
  ⟨rfl, rfl, rfl, rfl, rfl⟩

theorem sameCore_trans {s₁ s₂ s₃ : EngineState} (h₁ : SameCore s₁ s₂)
    (h₂ : SameCore s₂ s₃) : SameCore s₁ s₃ :=
  ⟨h₁.1.trans h₂.1, h₁.2.1.trans h₂.2.1, h₁.2.2.1.trans h₂.2.2.1,
   h₁.2.2.2.1.trans h₂.2.2.2.1, h₁.2.2.2.2.trans h₂.2.2.2.2⟩

theorem sameCore_symm {s₁ s₂ : EngineState} (h : SameCore s₁ s₂) :
    SameCore s₂ s₁ :=
  ⟨h.1.symm, h.2.1.symm, h.2.2.1.symm, h.2.2.2.1.symm, h.2.2.2.2.symm⟩

theorem runFrom_nil (n : Nat) (s : EngineState) : runFrom n s [] = s := rfl

theorem runFrom_cons (n : Nat) (s : EngineState) (b : Nat) (l : List Nat) :
    runFrom n s (b :: l) = runFrom n (step n s b) l := rfl

theorem runFrom_append (n : Nat) (s : EngineState) (x y : List Nat) :
    runFrom n s (x ++ y) = runFrom n (runFrom n s x) y := by
  simp [runFrom, List.foldl_append]

theorem step_sameCore {s₁ s₂ : EngineState} (n b : Nat) (h : SameCore s₁ s₂) :
    SameCore (step n s₁ b) (step n s₂ b) := by
  obtain ⟨ho, hl, ht, hm, hlb⟩ := h
  unfold step
  simp only [ho, hl, ht, hm, hlb]
  split_ifs <;> exact ⟨by simp [ho], by simp [hl], by simp [ht],
    by simp [hm], by simp [hlb]⟩

theorem runFrom_sameCore (n : Nat) :
    ∀ (l : List Nat) {s₁ s₂ : EngineState}, SameCore s₁ s₂ →
      SameCore (runFrom n s₁ l) (runFrom n s₂ l)
  | [], _, _, h => h
  | b :: l, _, _, h =>
    runFrom_sameCore n l (step_sameCore n b h)

theorem finish_sameCore {s₁ s₂ : EngineState} (h : SameCore s₁ s₂) :
    finish s₁ = finish s₂ := by
  obtain ⟨ho, hl, ht, _, _⟩ := h
  unfold finish
  rw [ho, hl, ht]

theorem finish_of_line_nil {s : EngineState} (h : s.line = []) :
    finish s = s.out ++ s.tok := by
  unfold finish
  rw [h]
  cases s.tok with
  | nil => simp
  | cons a l => simp

theorem step_lastB_of_ws {b : Nat} (n : Nat) (s : EngineState)
    (hb : b = 9 ∨ b = 32) : (step n s b).lastB = b := by
  rcases hb with rfl | rfl <;> (unfold step; split_ifs <;> simp_all [tokEnds])

theorem step_consume_ws {s : EngineState} {b : Nat} (n : Nat)
    (hb : b = 9 ∨ b = 32) (h : s.lastB = b) :
    SameCore (step n s b) s ∧ indentSum (step n s b) = indentSum s + 1 := by
  rcases hb with rfl | rfl
  · unfold step
    rw [if_pos ⟨h, rfl⟩]
    exact ⟨⟨rfl, rfl, rfl, rfl, h.symm⟩, by simp [indentSum]; omega⟩
  · unfold step
    rw [if_neg (fun hc => by omega), if_pos ⟨h, rfl⟩]
    exact ⟨⟨rfl, rfl, rfl, rfl, h.symm⟩, by simp [indentSum]; omega⟩

theorem step_clean {s : EngineState} {b n : Nat} (hline : s.line = [])
    (hc : ¬ consumesWs s b) (ho : ¬ overflowStep n s b) :
    (step n s b).out ++ (step n s b).tok = s.out ++ s.tok ++ [b] ∧
      (step n s b).line = [] := by
  unfold step
  split_ifs <;>
    simp_all [consumesWs, overflowStep, commentStep, List.append_assoc] <;>
    omega

theorem runFrom_clean (n : Nat) :
    ∀ (l : List Nat) (s : EngineState), s.line = [] → CleanRun n s l →
      (runFrom n s l).out ++ (runFrom n s l).tok = s.out ++ s.tok ++ l ∧
        (runFrom n s l).line = []
  | [], s, hline, _ => by simp [runFrom_nil, hline]
  | b :: l, s, hline, hclean => by
    rw [CleanRun] at hclean
    obtain ⟨hc, ho, hrest⟩ := hclean
    obtain ⟨hstep, hstepline⟩ := step_clean hline hc ho
    rw [runFrom_cons]
    obtain ⟨h1, h2⟩ := runFrom_clean n l (step n s b) hstepline hrest
    refine ⟨?_, h2⟩
    rw [hstep] at h1
    simpa [List.append_assoc] using h1

theorem wrap_clean_id (x : List Nat) (n : Nat)
    (h : CleanRun n initState x) : wrap x n = x := by
  obtain ⟨h1, h2⟩ := runFrom_clean n x initState rfl h
  unfold wrap
  rw [finish_of_line_nil h2, h1]
  simp [initState]

theorem consume_replicate (n w : Nat) (hb : w = 9 ∨ w = 32) :
    ∀ (k : Nat) (s : EngineState), s.lastB = w →
      SameCore (runFrom n s (List.replicate k w)) s ∧
        indentSum (runFrom n s (List.replicate k w)) = indentSum s + k
  | 0, s, _ => by simp [List.replicate, runFrom_nil, sameCore_refl]
  | k + 1, s, h => by
    rw [List.replicate_succ, runFrom_cons]
    obtain ⟨hcore, hsum⟩ := step_consume_ws n hb h
    have hlast : (step n s w).lastB = w := step_lastB_of_ws n s hb
    obtain ⟨ihcore, ihsum⟩ := consume_replicate n w hb k (step n s w) hlast
    exact ⟨sameCore_trans ihcore hcore, by rw [ihsum, hsum]; omega⟩

theorem step_consume_sameCore {s : EngineState} {b : Nat} (n : Nat)
    (hc : consumesWs s b) : SameCore (step n s b) s := by
  rcases hc with ⟨h1, h2⟩ | ⟨h1, h2⟩
  · unfold step
    rw [if_pos ⟨h1, h2⟩]
    exact ⟨rfl, rfl, rfl, rfl, h2.trans h1.symm⟩
  · unfold step
    rw [if_neg (fun hcc => by obtain ⟨ha, _⟩ := hcc; omega),
        if_pos ⟨h1, h2⟩]
    exact ⟨rfl, rfl, rfl, rfl, h2.trans h1.symm⟩

theorem consumesWs_iff_of_sameCore {s t : EngineState} {b : Nat}
    (h : SameCore t s) : consumesWs t b ↔ consumesWs s b := by
  unfold consumesWs
  rw [h.2.2.2.2]

theorem commentStep_iff_of_sameCore {s t : EngineState} {b : Nat}
    (h : SameCore t s) : commentStep t b ↔ commentStep s b := by
  unfold commentStep
  rw [h.2.2.2.1, h.2.2.2.2]

theorem overflowStep_iff_of_sameCore {s t : EngineState} {b : Nat}
    (n : Nat) (h : SameCore t s) :
    overflowStep n t b ↔ overflowStep n s b := by
  unfold overflowStep
  rw [h.2.1, h.2.2.1, consumesWs_iff_of_sameCore h,
      commentStep_iff_of_sameCore h]

theorem runFrom_noOverflow (n : Nat) :
    ∀ (l : List Nat) (s : EngineState), s.line = [] → NoOverflowRun n s l →
      (runFrom n s l).out ++ (runFrom n s l).tok =
          s.out ++ s.tok ++ dropRun n s l ∧
        (runFrom n s l).line = []
  | [], s, hline, _ => by simp [runFrom_nil, dropRun, hline]
  | b :: l, s, hline, hno => by
    rw [NoOverflowRun] at hno
    obtain ⟨ho, hrest⟩ := hno
    rw [runFrom_cons]
    by_cases hc : consumesWs s b
    · have hcore := step_consume_sameCore n hc
      have hline2 : (step n s b).line = [] := hcore.2.1.trans hline
      obtain ⟨h1, h2⟩ := runFrom_noOverflow n l (step n s b) hline2 hrest
      simp only [dropRun, if_pos hc]
      refine ⟨?_, h2⟩
      rw [h1, hcore.1, hcore.2.2.1]
    · obtain ⟨hstep, hstepline⟩ := step_clean hline hc ho
      obtain ⟨h1, h2⟩ := runFrom_noOverflow n l (step n s b) hstepline hrest
      simp only [dropRun, if_neg hc]
      refine ⟨?_, h2⟩
      rw [h1, hstep]
      simp [List.append_assoc]

theorem wrap_noOverflow_eq_dropRun (x : List Nat) (n : Nat)
    (h : NoOverflowRun n initState x) :
    wrap x n = dropRun n initState x := by
  obtain ⟨h1, h2⟩ := runFrom_noOverflow n x initState rfl h
  unfold wrap
  rw [finish_of_line_nil h2, h1]
  simp [initState]

theorem cleanRun_dropRun (n : Nat) :
    ∀ (l : List Nat) (s t : EngineState), SameCore t s →
      NoOverflowRun n s l →
      CleanRun n t (dropRun n s l) ∧
        SameCore (runFrom n t (dropRun n s l)) (runFrom n s l)
  | [], s, t, hst, _ => ⟨trivial, hst⟩
  | b :: l, s, t, hst, hno => by
    rw [NoOverflowRun] at hno
    obtain ⟨ho, hrest⟩ := hno
    by_cases hc : consumesWs s b
    · have hcore := step_consume_sameCore n hc
      have hts : SameCore t (step n s b) :=
        sameCore_trans hst (sameCore_symm hcore)
      have ih := cleanRun_dropRun n l (step n s b) t hts hrest
      rw [runFrom_cons]
      simpa only [dropRun, if_pos hc] using ih
    · have ih := cleanRun_dropRun n l (step n s b) (step n t b)
        (step_sameCore n b hst) hrest
      simp only [dropRun, if_neg hc]
      constructor
      · rw [CleanRun]
        exact ⟨fun hcc => hc ((consumesWs_iff_of_sameCore hst).mp hcc),
               fun hoo => ho ((overflowStep_iff_of_sameCore n hst).mp hoo),
               ih.1⟩
      · rw [runFrom_cons, runFrom_cons]
        exact ih.2

/-- Claim C1 (code bug): losslessness fails on the code.  On the input
`"  "` (two spaces, bytes `[32, 32]`) with `maxlen = 10` (far larger than
any token of the input) the engine emits a single space: the second space
is consumed into the indent counter by src/main.go:195-198 and that
counter is never written back to the output, so the newline-stripped
output differs from the newline-stripped input. -/
theorem wrap_not_lossless_on_repeated_space :
    wrap [32, 32] 10 = [32] ∧
      removeNewlines (wrap [32, 32] 10) ≠ removeNewlines [32, 32] := by
  decide

/-- Claim C2 (code bug): the max-length invariant fails on the code.  On
the spec's own scenario input `"a + b + c + d + e\n"` with `maxlen = 9`
the engine returns the input unchanged, whose first line is 17 bytes long
(not a single atomic token — it contains boundary bytes): completed tokens
are written directly to `out` instead of `line` (src/main.go:253, 261), so
the length check at src/main.go:238 compares against an always-empty line
buffer and multi-token lines are never wrapped. -/
theorem wrap_exceeds_maxlen_scenario1 :
    wrap [97, 32, 43, 32, 98, 32, 43, 32, 99, 32, 43, 32,
          100, 32, 43, 32, 101, 10] 9 =
      [97, 32, 43, 32, 98, 32, 43, 32, 99, 32, 43, 32,
       100, 32, 43, 32, 101, 10] ∧
    (linesOf (wrap [97, 32, 43, 32, 98, 32, 43, 32, 99, 32, 43, 32,
          100, 32, 43, 32, 101, 10] 9)).map List.length = [17, 0] := by
  decide

/-- Claim C3 counterexample: the engine is not idempotent.  On the input
`"aaaaa."` with `maxlen = 4` the first run yields `"aaaaa.\n"` (a newline
is inserted after the over-long token flush); re-running on that output
re-inserts the break and additionally emits the now-present newline,
yielding `"aaaaa.\n\n"`. -/
theorem wrap_not_idempotent_cx :
    wrap (wrap [97, 97, 97, 97, 97, 46] 4) 4 ≠
      wrap [97, 97, 97, 97, 97, 46] 4 := by
  decide

/-- Claim C3 (amended): idempotence holds for every input on which the
engine takes no overflow break step (in particular whenever `maxlen` is
at least every pending token length at each boundary byte, e.g. at least
the longest atomic token of the input): there `wrap x maxlen` is the
input with the consumed repeated-whitespace bytes dropped, the re-run
neither consumes nor breaks, and the output is a fixed point, so
re-running with the same `maxlen` is byte-identical.  Only the overflow
break mechanism exhibited by the counterexample breaks idempotence. -/
theorem wrap_idempotent_of_noOverflow (x : List Nat) (n : Nat)
    (h : NoOverflowRun n initState x) : wrap (wrap x n) n = wrap x n := by
  have hdrop := wrap_noOverflow_eq_dropRun x n h
  obtain ⟨hclean, _⟩ :=
    cleanRun_dropRun n x initState initState (sameCore_refl initState) h
  rw [hdrop]
  exact wrap_clean_id (dropRun n initState x) n hclean

/-- Witness for the amended claim C3: on `"\t\tf\n"` with `maxlen = 80`
no overflow step occurs even though a whitespace byte is consumed (the
engine output `"\tf\n"` differs from the input), and the double wrap
equals the single wrap. -/
theorem wrap_idempotent_of_noOverflow_witness :
    NoOverflowRun 80 initState [9, 9, 102, 10] ∧
      wrap (wrap [9, 9, 102, 10] 80) 80 = wrap [9, 9, 102, 10] 80 :=
  ⟨by decide, wrap_idempotent_of_noOverflow [9, 9, 102, 10] 80 (by decide)⟩

/-- Claim C4 (code bug): token atomicity fails on the code.  On the input
`"aaaaa//b"` with `maxlen = 4` the engine emits `"aaaaa/\nb"`-style output
`[97,97,97,97,97,47,10,47,98]`: the inserted line boundary falls between
the two bytes of the `//` marker.  The overflow path's `continue`
(src/main.go:287) skips the `lastB = b` update at src/main.go:294, so
after the break the stale lookback prevents the line-comment detection at
src/main.go:219 from keeping `//` atomic. -/
theorem wrap_splits_line_comment_marker :
    wrap [97, 97, 97, 97, 97, 47, 47, 98] 4 =
      [97, 97, 97, 97, 97, 47, 10, 47, 98] ∧
    linesOf (wrap [97, 97, 97, 97, 97, 47, 47, 98] 4) =
      [[97, 97, 97, 97, 97, 47], [47, 98]] := by
  decide

/-- Claim C5 (code bug): line-comment continuation lines do not begin with
`//`.  On `"//aaaaaaaa.b\n"` with `maxlen = 4` the engine wraps inside a
line comment and the continuation line is `[98]` (`"b"`), with no `//`
marker: the `switch syntaxMode` at src/main.go:241-251 treats all modes
identically and writes no marker.  The second engine iteration behaves the
same way: `maxlenWriter.Write` (src/main.go:624-667) called in
line-comment mode pre-seeds the new line with indent bytes only. -/
theorem wrap_no_line_comment_continuation_marker :
    wrap [47, 47, 97, 97, 97, 97, 97, 97, 97, 97, 46, 98, 10] 4 =
      [47, 47, 97, 97, 97, 97, 97, 97, 97, 97, 46, 10, 98, 10] ∧
    (runFrom 4 initState
        [47, 47, 97, 97, 97, 97, 97, 97, 97, 97, 46]).mode =
      Mode.lineComment ∧
    linesOf (wrap [47, 47, 97, 97, 97, 97, 97, 97, 97, 97, 46, 98, 10] 4) =
      [[47, 47, 97, 97, 97, 97, 97, 97, 97, 97, 46], [98], []] ∧
    mlwWrite 4 [] [97, 97, 97, 97, 97] [98, 98] Mode.lineComment 0 0 =
      ([97, 97, 97, 97, 97, 10], [9, 98, 98]) := by
  decide

/-- Claim C6 (code bug): indentation preservation fails on the code.  On
`"\taaaaaaaa.b\n"` with `maxlen = 4` the engine's continuation line is
`[98]` with no leading tab at all (the recorded indent is never written
back), while the second engine iteration's `maxlenWriter.Write` with an
original indent of one tab pre-seeds the continuation line with two tabs
(`lineIndent.before.tabs++` at src/main.go:632 increments on every wrap):
neither repeats the original indentation exactly. -/
theorem wrap_continuation_indent_not_preserved :
    wrap [9, 97, 97, 97, 97, 97, 97, 97, 97, 46, 98, 10] 4 =
      [9, 97, 97, 97, 97, 97, 97, 97, 97, 46, 10, 98, 10] ∧
    linesOf (wrap [9, 97, 97, 97, 97, 97, 97, 97, 97, 46, 98, 10] 4) =
      [[9, 97, 97, 97, 97, 97, 97, 97, 97, 46], [98], []] ∧
    mlwWrite 4 [] [97, 97, 97, 97, 97] [98] Mode.normal 1 0 =
      ([97, 97, 97, 97, 97, 10], [9, 9, 98]) := by
  decide

/-- Claim C7 (code bug): a newline flushes the current token and line (the
output for `"//x\n"` is the input itself, flushed at the newline), but it
does not reset the syntax mode to normal — after processing `"//x\n"` the
mode is still `lineComment` — and it does not reset the indent tracker —
after `"\t\ta\n"` the recorded tab count is still 1.  The newline block at
src/main.go:272-288 touches neither `syntaxMode` nor `lineIndent`. -/
theorem newline_does_not_reset_mode_or_indent :
    wrap [47, 47, 120, 10] 80 = [47, 47, 120, 10] ∧
    (runFrom 80 initState [47, 47, 120, 10]).mode = Mode.lineComment ∧
    (runFrom 80 initState [9, 9, 97, 10]).indentTabs = 1 := by
  decide

/-- Claim C8: two-run noninterference over the `-w` flag.  The source
never reads a `-w` flag (src/main.go:102-112 parses `maxlen` and paths
only), so the engine's output bytes are identical for any two values of
the flag on every input and `maxlen`. -/
theorem wrap_warn_flag_noninterference (w₁ w₂ : Bool) (x : List Nat)
    (n : Nat) : wrapWithWarnFlag w₁ x n = wrapWithWarnFlag w₂ x n := rfl

/-- Claim C9: the engine is a total function computed in exactly one
forward pass.  `wrap` is defined by structural recursion (a single left
fold of the per-byte `step` over the input, followed by the final flush),
hence total on every finite byte stream and positive `maxlen`; the fold
decomposes along any split of the stream, i.e. the bytes are consumed
strictly left to right exactly once, and the result is the flush of that
single pass. -/
theorem run_single_pass_total (n : Nat) (s : EngineState) (x y : List Nat) :
    runFrom n s (x ++ y) = runFrom n (runFrom n s x) y ∧
      wrap x n = finish (runFrom n initState x) :=
  ⟨runFrom_append n s x y, rfl⟩

/-- Claim C10: every byte after the first of a run of consecutive
identical whitespace bytes (tab 9 or space 32), anywhere in the input, is
consumed as indent bookkeeping: the output is the same as if the run were
a single byte, and each consumed byte increments the indent counters by
exactly one (so none of them is ever written to the output). -/
theorem repeated_whitespace_consumed (n : Nat) (u v : List Nat) (w k : Nat)
    (hw : w = 9 ∨ w = 32) :
    wrap (u ++ w :: (List.replicate k w ++ v)) n = wrap (u ++ w :: v) n ∧
      indentSum (runFrom n initState (u ++ w :: List.replicate k w)) =
        indentSum (runFrom n initState (u ++ [w])) + k := by
  have hsplit : ∀ (z : List Nat), u ++ w :: z = (u ++ [w]) ++ z := by
    intro z; simp
  have hrun : ∀ (z : List Nat),
      runFrom n initState (u ++ w :: z) =
        runFrom n (runFrom n initState (u ++ [w])) z := by
    intro z; rw [hsplit z, runFrom_append]
  have hlast : (runFrom n initState (u ++ [w])).lastB = w := by
    rw [runFrom_append]
    exact step_lastB_of_ws n (runFrom n initState u) hw
  obtain ⟨hcore, hsum⟩ :=
    consume_replicate n w hw k (runFrom n initState (u ++ [w])) hlast
  constructor
  · unfold wrap
    rw [hrun (List.replicate k w ++ v), hrun v, runFrom_append]
    exact finish_sameCore (runFrom_sameCore n v hcore)
  · rw [hrun (List.replicate k w), hsum]

/-- Witness for claim C10: with `u = "a"`, `w` a space, `k = 2`,
`v = "b"`, `maxlen = 5`, the run of three spaces wraps identically to a
single space and the indent counters record exactly the two consumed
bytes. -/
theorem repeated_whitespace_consumed_witness :
    wrap ([97] ++ 32 :: (List.replicate 2 32 ++ [98])) 5 =
        wrap ([97] ++ 32 :: [98]) 5 ∧
      indentSum (runFrom 5 initState ([97] ++ 32 :: List.replicate 2 32)) =
        indentSum (runFrom 5 initState ([97] ++ [32])) + 2 :=
  repeated_whitespace_consumed 5 [97] [98] 32 2 (Or.inr rfl)

end Goline
